import Mathlib

/-!
# Flywheel: a verification development

Flywheel is a zero-flicker terminal compositor (double-buffered cell grid,
diff-based flushing, frame-paced engine, streaming text widget) exposed
through a C API (`include/flywheel.h`).  The repository ships only the C
header (constants, enums and function declarations); the implementation
behind it is specified in `spec.md`.  This file embeds the data model and
the operations as Lean definitions and proves the specification's testable
properties about them.  Constants and signatures are taken from the header;
the operational behaviour of each function is modelled from the spec.
-/

set_option maxHeartbeats 1000000

namespace Flywheel

/- ============================================================
   Constants from the header
   ============================================================ -/

/-- `FLYWHEEL_VERSION` macro from `include/flywheel.h`. -/
def FLYWHEEL_VERSION : String := "0.1.0"

/-- Modelled from the spec: `flywheel_version` (implementation not in the
repository) returns a static version string; `none` would model a null
pointer. -/
def flywheel_version : Option String := some FLYWHEEL_VERSION

/-- Event codes from `FlywheelEventType` in the header
(`NONE=0, KEY=1, RESIZE=2, ERROR=3, SHUTDOWN=4`). -/
inductive FlywheelEventType
  | NONE
  | KEY
  | RESIZE
  | ERROR
  | SHUTDOWN
deriving DecidableEq

/-- Numeric value of each event code, as fixed by the header. -/
def FlywheelEventType.code : FlywheelEventType → Nat
  | .NONE => 0
  | .KEY => 1
  | .RESIZE => 2
  | .ERROR => 3
  | .SHUTDOWN => 4

/-- Default foreground color of the empty cell (the spec leaves the concrete
default open; the differ resets to it with SGR reset). -/
def defaultFg : Nat := 0xffffff

/-- Default background color of the empty cell ("black background" per the
header's `flywheel_engine_clear`). -/
def defaultBg : Nat := 0x000000

/- ============================================================
   Cells and column widths
   ============================================================ -/

/-- Modelled from the spec: a Cell is "a character (Unicode scalar;
column-width 0, 1, or 2), a 24-bit foreground color, a 24-bit background
color". -/
structure Cell where
  ch : Char
  fg : Nat
  bg : Nat
deriving DecidableEq

/-- "The empty cell is the space character with foreground = default and
background = default." -/
def emptyCell : Cell := ⟨' ', defaultFg, defaultBg⟩

/-- C0 and C1 control characters (column width 0, stripped by widgets). -/
def isCtrlChar (c : Char) : Bool :=
  c.toNat < 0x20 || (0x7f ≤ c.toNat && c.toNat < 0xa0)

/-- Modelled from the spec: column-width-2 glyph classification (East Asian
wide ranges); the spec requires only widths 0, 1 or 2. -/
def isWideChar (c : Char) : Bool :=
  (0x1100 ≤ c.toNat && c.toNat ≤ 0x115f) ||
  (0x2e80 ≤ c.toNat && c.toNat ≤ 0x303e) ||
  (0x3041 ≤ c.toNat && c.toNat ≤ 0x33ff) ||
  (0x3400 ≤ c.toNat && c.toNat ≤ 0x4dbf) ||
  (0x4e00 ≤ c.toNat && c.toNat ≤ 0x9fff) ||
  (0xac00 ≤ c.toNat && c.toNat ≤ 0xd7a3) ||
  (0xf900 ≤ c.toNat && c.toNat ≤ 0xfaff) ||
  (0xff00 ≤ c.toNat && c.toNat ≤ 0xff60) ||
  (0x20000 ≤ c.toNat && c.toNat ≤ 0x2fffd)

/-- Column width of a character: 0 for controls, 2 for wide glyphs, else 1. -/
def charWidth (c : Char) : Nat :=
  if isCtrlChar c then 0 else if isWideChar c then 2 else 1

/- ============================================================
   CellBuffer
   ============================================================ -/

/-- Modelled from the spec: a width×height grid of cells with per-row dirty
bits and a generation counter.  The grid is represented as a total function
read only inside bounds. -/
structure CellBuffer where
  width : Nat
  height : Nat
  grid : Nat → Nat → Cell
  dirty : Nat → Bool
  gen : Nat

/-- "x ≥ width or y ≥ height returns the empty cell on read". -/
def CellBuffer.get (b : CellBuffer) (x y : Nat) : Cell :=
  if x < b.width ∧ y < b.height then b.grid x y else emptyCell

/-- Modelled from the spec: `set(x, y, cell)` writes in bounds and "marks
row dirty iff new value ≠ old"; out of bounds is a no-op. -/
def CellBuffer.set (b : CellBuffer) (x y : Nat) (c : Cell) : CellBuffer :=
  if x < b.width ∧ y < b.height then
    { b with
      grid := fun a b' => if a = x ∧ b' = y then c else b.grid a b'
      dirty := fun r => if r = y ∧ c ≠ b.grid x y then true else b.dirty r }
  else b

/-- A fresh buffer: all cells empty, all rows dirty (state after `resize`). -/
def emptyBuffer (w h g : Nat) : CellBuffer :=
  { width := w, height := h, grid := fun _ _ => emptyCell
    dirty := fun _ => true, gen := g }

/-- "clear(): fills with empty cell; marks all rows dirty". -/
def CellBuffer.clear (b : CellBuffer) : CellBuffer :=
  { b with grid := fun _ _ => emptyCell, dirty := fun _ => true
           gen := b.gen + 1 }

/-- Modelled from the spec: `fill_rect` clipped to bounds, as repeated
`set`. -/
def CellBuffer.fillRect (b : CellBuffer) (x y w h : Nat) (c : Cell) :
    CellBuffer :=
  (List.range h).foldl
    (fun acc dy =>
      (List.range w).foldl (fun acc2 dx => acc2.set (x + dx) (y + dy) c) acc)
    b

/-- The zero-width sentinel cell following a 2-wide glyph. -/
def sentinelCell (fg bg : Nat) : Cell := ⟨Char.ofNat 0, fg, bg⟩

/-- Modelled from the spec: `draw_text` helper.  Writes characters left to
right, "clipping right, treating 2-wide glyphs atomically (a 2-wide glyph
landing with one column of remaining space is skipped, not truncated), and
stopping at any control character".  Returns the buffer and the columns
actually written. -/
def drawTextAux (fg bg y : Nat) : CellBuffer → Nat → List Char → Nat →
    CellBuffer × Nat
  | b, _, [], cols => (b, cols)
  | b, x, c :: rest, cols =>
    if isCtrlChar c then (b, cols)
    else if isWideChar c then
      if x + 1 < b.width ∧ y < b.height then
        drawTextAux fg bg y
          ((b.set x y ⟨c, fg, bg⟩).set (x + 1) y (sentinelCell fg bg))
          (x + 2) rest (cols + 2)
      else drawTextAux fg bg y b (x + 2) rest cols
    else
      if x < b.width ∧ y < b.height then
        drawTextAux fg bg y (b.set x y ⟨c, fg, bg⟩) (x + 1) rest (cols + 1)
      else (b, cols)

/-- `draw_text(x, y, s, fg, bg)` on a buffer: returns (buffer, columns). -/
def CellBuffer.drawText (b : CellBuffer) (x y : Nat) (s : List Char)
    (fg bg : Nat) : CellBuffer × Nat :=
  drawTextAux fg bg y b x s 0

/- ============================================================
   Terminal model: commands and application
   ============================================================ -/

/-- The terminal control commands the differ emits (the abstract form of
the ANSI byte stream: CUP, SGR 38;2 / 48;2, character bytes, clear, home,
cursor visibility, SGR reset). -/
inductive TermCmd
  | cursorPos (x y : Nat)
  | setFg (c : Nat)
  | setBg (c : Nat)
  | putCell (ch : Char)
  | clearScreen
  | home
  | hideCursor
  | showCursor
  | resetSGR
deriving DecidableEq

/-- A terminal as the receiver of the byte stream: a grid of cells, a
cursor, the active SGR pen, and cursor visibility. -/
structure Terminal where
  grid : Nat → Nat → Cell
  curX : Nat
  curY : Nat
  fg : Nat
  bg : Nat
  cursorVisible : Bool

/-- Semantics of one terminal command: a character is printed at the cursor
with the active pen and the cursor advances one column. -/
def applyCmd (t : Terminal) : TermCmd → Terminal
  | .cursorPos x y => { t with curX := x, curY := y }
  | .setFg c => { t with fg := c }
  | .setBg c => { t with bg := c }
  | .putCell ch =>
    { t with
      grid := fun a b =>
        if a = t.curX ∧ b = t.curY then ⟨ch, t.fg, t.bg⟩ else t.grid a b
      curX := t.curX + 1 }
  | .clearScreen => { t with grid := fun _ _ => emptyCell }
  | .home => { t with curX := 0, curY := 0 }
  | .hideCursor => { t with cursorVisible := false }
  | .showCursor => { t with cursorVisible := true }
  | .resetSGR => { t with fg := defaultFg, bg := defaultBg }

/-- Apply a whole command stream, left to right. -/
def applyCmds (cmds : List TermCmd) (t : Terminal) : Terminal :=
  cmds.foldl applyCmd t

/-- A terminal "displaying" a buffer: the grid matches cell for cell inside
the buffer's bounds and the active pen is the default left by the previous
frame's SGR reset. -/
def displays (t : Terminal) (b : CellBuffer) : Prop :=
  (∀ x, x < b.width → ∀ y, y < b.height → t.grid x y = b.grid x y) ∧
  t.fg = defaultFg ∧ t.bg = defaultBg

/- ============================================================
   Differ / Flusher
   ============================================================ -/

/-- The differ's tracked pen (active SGR colors). -/
structure Pen where
  fg : Nat
  bg : Nat
deriving DecidableEq

/-- Pen state at frame start ("Pen state is reset at frame start"). -/
def defaultPen : Pen := ⟨defaultFg, defaultBg⟩

/-- Coalescing gap: "runs separated by ≤ COALESCE_GAP (default 3) identical
cells" are merged. -/
def COALESCE_GAP : Nat := 3

/-- Does `curr` differ from `prev` at column `x` of row `y`? -/
def diffAt (p c : Nat → Nat → Cell) (y x : Nat) : Bool :=
  decide (c x y ≠ p x y)

/-- Largest differing column left of `x` in row `y`, if any. -/
def prevDiffIdx (p c : Nat → Nat → Cell) (y x : Nat) : Option Nat :=
  ((List.range x).filter (diffAt p c y)).getLast?

/-- Smallest differing column right of `x` (below `w`) in row `y`, if any. -/
def nextDiffIdx (p c : Nat → Nat → Cell) (y w x : Nat) : Option Nat :=
  ((List.range w).drop (x + 1)).find? (diffAt p c y)

/-- Modelled from the spec: a column is emitted when it differs, or when it
sits in a gap of ≤ `COALESCE_GAP` identical cells between two differing
cells of the same row ("emitting the identical cells verbatim is cheaper
than an extra cursor-position sequence"). -/
def emittedAt (p c : Nat → Nat → Cell) (y w x : Nat) : Bool :=
  diffAt p c y x ||
    (match prevDiffIdx p c y x, nextDiffIdx p c y w x with
     | some i, some j => decide (j ≤ i + COALESCE_GAP + 1)
     | _, _ => false)

/-- SGR updates needed before printing cell `c` with active pen `pen`:
"emit SGR updates only when fg or bg changed from the currently active
pen". -/
def sgrCmds (pen : Pen) (c : Cell) : List TermCmd :=
  (if c.fg ≠ pen.fg then [TermCmd.setFg c.fg] else []) ++
  (if c.bg ≠ pen.bg then [TermCmd.setBg c.bg] else [])

/-- Modelled from the spec: row emission.  Scans columns `x, x+1, …` (with
`rem` columns left); for each run of emitted cells emits at most one
cursor-position command (`inRun` tracks whether the cursor is already at
the write position), pen-minimal SGR updates, then the character bytes.
Returns the commands and the final tracked pen. -/
def rowEmitAux (p c : Nat → Nat → Cell) (y w : Nat) :
    Nat → Nat → Pen → Bool → List TermCmd × Pen
  | 0, _, pen, _ => ([], pen)
  | rem + 1, x, pen, inRun =>
    if emittedAt p c y w x then
      let cell := c x y
      let pos := if inRun then [] else [TermCmd.cursorPos x y]
      let r := rowEmitAux p c y w rem (x + 1) ⟨cell.fg, cell.bg⟩ true
      (pos ++ sgrCmds pen cell ++ (TermCmd.putCell cell.ch :: r.1), r.2)
    else
      rowEmitAux p c y w rem (x + 1) pen false

/-- Emission for one full row of width `w`. -/
def rowEmit (p c : Nat → Nat → Cell) (y w : Nat) (pen : Pen) :
    List TermCmd × Pen :=
  rowEmitAux p c y w w 0 pen false

/-- Emission for a list of rows, threading the pen across rows ("pen state
persists between runs and rows"). -/
def rowsEmit (p c : Nat → Nat → Cell) (w : Nat) :
    List Nat → Pen → List TermCmd × Pen
  | [], pen => ([], pen)
  | y :: rest, pen =>
    let r1 := rowEmit p c y w pen
    let r2 := rowsEmit p c w rest r1.2
    (r1.1 ++ r2.1, r2.2)

/-- Modelled from the spec: the frame differ.  On `force` it begins with
hide-cursor + clear-screen + home and walks the entire grid against an
all-empty previous image; otherwise it walks only the dirty rows of `curr`
against `prev`.  It ends with show-cursor and SGR reset. -/
def diffFrame (prev curr : CellBuffer) (force : Bool) : List TermCmd :=
  let w := curr.width
  let h := curr.height
  let pgrid := if force then (fun _ _ => emptyCell) else prev.grid
  let rows :=
    if force then List.range h
    else (List.range h).filter (fun y => curr.dirty y)
  let pre :=
    if force then [TermCmd.hideCursor, TermCmd.clearScreen, TermCmd.home]
    else []
  pre ++ (rowsEmit pgrid curr.grid w rows defaultPen).1 ++
    [TermCmd.showCursor, TermCmd.resetSGR]

/- ============================================================
   Input events and engine state
   ============================================================ -/

/-- A typed input event as parsed from stdin (§4.4). -/
inductive InputEvent
  | key (charCode keyCode modifiers : Nat)
  | resize (w h : Nat)
  | error
  | shutdown
deriving DecidableEq

/-- Modelled from the spec: engine state (§3).  Owns both cell buffers
(`back` drawn into, `front` last flushed), the `running` and
`force_full_redraw` flags, the pacing clock (`lastFlush`, `interval` in
milliseconds), a pending-resize flag and the queue of parsed input
events. -/
structure Engine where
  width : Nat
  height : Nat
  back : CellBuffer
  front : CellBuffer
  running : Bool
  force_full_redraw : Bool
  lastFlush : Nat
  interval : Nat
  frame : Nat
  pendingResize : Option (Nat × Nat)
  events : List InputEvent

/-- A freshly created engine for a w×h terminal: running, first frame
forces a full redraw, default 60 Hz pacing. -/
def mkEngine (w h : Nat) : Engine :=
  { width := w, height := h
    back := emptyBuffer w h 0, front := emptyBuffer w h 0
    running := true, force_full_redraw := true
    lastFlush := 0, interval := 16, frame := 0
    pendingResize := none, events := [] }

/-- "stop() is idempotent and immediate": Running → Stopping. -/
def Engine.stop (e : Engine) : Engine := { e with running := false }

/-- Modelled from the spec: `begin_frame` advances the frame counter,
applies a pending resize (resizing both buffers and forcing a full
redraw), and clears the back buffer.  In Stopping/Stopped it is a no-op. -/
def Engine.begin_frame (e : Engine) : Engine :=
  if e.running then
    let e1 :=
      match e.pendingResize with
      | some (w, h) =>
        { e with width := w, height := h
                 back := emptyBuffer w h (e.back.gen + 1)
                 front := emptyBuffer w h (e.front.gen + 1)
                 force_full_redraw := true, pendingResize := none }
      | none => e
    { e1 with back := e1.back.clear, frame := e1.frame + 1 }
  else e

/-- `set_cell` draws into the back buffer; no-op when not running. -/
def Engine.set_cell (e : Engine) (x y : Nat) (ch : Char) (fg bg : Nat) :
    Engine :=
  if e.running then { e with back := e.back.set x y ⟨ch, fg, bg⟩ } else e

/-- `draw_text` draws into the back buffer and returns the columns used;
no-op returning 0 when not running. -/
def Engine.draw_text (e : Engine) (x y : Nat) (s : List Char) (fg bg : Nat) :
    Engine × Nat :=
  if e.running then
    let r := e.back.drawText x y s fg bg
    ({ e with back := r.1 }, r.2)
  else (e, 0)

/-- `fill_rect` into the back buffer; no-op when not running. -/
def Engine.fill_rect (e : Engine) (x y w h : Nat) (ch : Char) (fg bg : Nat) :
    Engine :=
  if e.running then { e with back := e.back.fillRect x y w h ⟨ch, fg, bg⟩ }
  else e

/-- `clear` the back buffer; no-op when not running. -/
def Engine.clearBack (e : Engine) : Engine :=
  if e.running then { e with back := e.back.clear } else e

/-- `request_redraw` sets `force_full_redraw`. -/
def Engine.request_redraw (e : Engine) : Engine :=
  { e with force_full_redraw := true }

/-- `handle_resize` records new dimensions for the next `begin_frame`. -/
def Engine.handle_resize (e : Engine) (w h : Nat) : Engine :=
  { e with pendingResize := some (w, h) }

/-- Has the minimum inter-frame interval elapsed since the last flush? -/
def flushDue (e : Engine) (now : Nat) : Bool :=
  decide (e.interval ≤ now - e.lastFlush)

/-- Modelled from the spec: `end_frame` consults the pacer; if the frame is
not due it is dropped (no bytes, back buffer retained); otherwise it runs
the differ, emits the byte stream, makes `curr` the new `prev` with all
dirty bits cleared, clears `force_full_redraw` and records the flush
timestamp.  In Stopping/Stopped it does not write. -/
def Engine.end_frame (e : Engine) (now : Nat) : Engine × List TermCmd :=
  if e.running then
    if flushDue e now then
      let out := diffFrame e.front e.back e.force_full_redraw
      let flushed := { e.back with dirty := fun _ => false }
      ({ e with front := flushed, back := flushed
                force_full_redraw := false, lastFlush := now }, out)
    else (e, [])
  else (e, [])

/-- Modelled from the spec: non-blocking `poll_event`.  Returns `NONE` when
not running or when the queue is empty; a `Shutdown` event transitions
`running` to false; a resize records pending dimensions. -/
def Engine.poll_event (e : Engine) : FlywheelEventType × Engine :=
  if e.running then
    match e.events with
    | [] => (.NONE, e)
    | ev :: rest =>
      match ev with
      | .key _ _ _ => (.KEY, { e with events := rest })
      | .resize w h =>
        (.RESIZE, { e with events := rest, pendingResize := some (w, h) })
      | .error => (.ERROR, { e with events := rest })
      | .shutdown => (.SHUTDOWN, { e with events := rest, running := false })
  else (.NONE, e)

/-- One draw primitive of the frame body (§4.5 step 2). -/
inductive DrawOp
  | setCell (x y : Nat) (ch : Char) (fg bg : Nat)
  | drawText (x y : Nat) (s : List Char) (fg bg : Nat)
  | fillRect (x y w h : Nat) (ch : Char) (fg bg : Nat)
  | clear
deriving DecidableEq

/-- Interpret one draw primitive on the engine. -/
def applyDraw (e : Engine) : DrawOp → Engine
  | .setCell x y ch fg bg => e.set_cell x y ch fg bg
  | .drawText x y s fg bg => (e.draw_text x y s fg bg).1
  | .fillRect x y w h ch fg bg => e.fill_rect x y w h ch fg bg
  | .clear => e.clearBack

/-- Interpret a sequence of draw primitives in call order. -/
def applyDraws (ds : List DrawOp) (e : Engine) : Engine :=
  ds.foldl applyDraw e

/- ============================================================
   C ABI layer: null-safe wrappers over the core
   ============================================================ -/

/-- `flywheel_engine_width`: 0 for a null handle. -/
def flywheel_engine_width : Option Engine → Nat
  | none => 0
  | some e => e.width

/-- `flywheel_engine_height`: 0 for a null handle. -/
def flywheel_engine_height : Option Engine → Nat
  | none => 0
  | some e => e.height

/-- `flywheel_engine_is_running`: false for a null handle. -/
def flywheel_engine_is_running : Option Engine → Bool
  | none => false
  | some e => e.running

/-- `flywheel_engine_stop`: void no-op on a null handle. -/
def flywheel_engine_stop : Option Engine → Option Engine
  | none => none
  | some e => some e.stop

/-- `flywheel_engine_poll_event`: `NONE` for a null handle. -/
def flywheel_engine_poll_event :
    Option Engine → FlywheelEventType × Option Engine
  | none => (.NONE, none)
  | some e => ((e.poll_event).1, some (e.poll_event).2)

/-- `flywheel_engine_begin_frame`: void no-op on a null handle. -/
def flywheel_engine_begin_frame : Option Engine → Option Engine
  | none => none
  | some e => some e.begin_frame

/-- `flywheel_engine_end_frame`: void no-op (no bytes) on a null handle. -/
def flywheel_engine_end_frame :
    Option Engine → Nat → Option Engine × List TermCmd
  | none, _ => (none, [])
  | some e, now => (some (e.end_frame now).1, (e.end_frame now).2)

/-- `flywheel_engine_set_cell`: void no-op on a null handle. -/
def flywheel_engine_set_cell (h : Option Engine) (x y : Nat) (ch : Char)
    (fg bg : Nat) : Option Engine :=
  match h with
  | none => none
  | some e => some (e.set_cell x y ch fg bg)

/-- `flywheel_engine_draw_text`: 0 columns on a null handle. -/
def flywheel_engine_draw_text (h : Option Engine) (x y : Nat) (s : List Char)
    (fg bg : Nat) : Option Engine × Nat :=
  match h with
  | none => (none, 0)
  | some e => (some (e.draw_text x y s fg bg).1, (e.draw_text x y s fg bg).2)

/-- `flywheel_engine_handle_resize`: void no-op on a null handle. -/
def flywheel_engine_handle_resize (h : Option Engine) (w hh : Nat) :
    Option Engine :=
  match h with
  | none => none
  | some e => some (e.handle_resize w hh)

/-- `flywheel_engine_request_redraw`: void no-op on a null handle. -/
def flywheel_engine_request_redraw : Option Engine → Option Engine
  | none => none
  | some e => some e.request_redraw

/-- `flywheel_engine_request_update` is an advisory hint (§4.5). -/
def flywheel_engine_request_update : Option Engine → Option Engine
  | none => none
  | some e => some e

/-- `flywheel_engine_clear`: void no-op on a null handle. -/
def flywheel_engine_clear : Option Engine → Option Engine
  | none => none
  | some e => some e.clearBack

/-- `flywheel_engine_fill_rect`: void no-op on a null handle. -/
def flywheel_engine_fill_rect (h : Option Engine) (x y w hh : Nat) (ch : Char)
    (fg bg : Nat) : Option Engine :=
  match h with
  | none => none
  | some e => some (e.fill_rect x y w hh ch fg bg)

/-- `flywheel_rgb(r, g, b) → 0xRRGGBB`. -/
def flywheel_rgb (r g b : Nat) : Nat :=
  (r % 256) * 65536 + (g % 256) * 256 + (b % 256)

/- ============================================================
   StreamWidget
   ============================================================ -/

/-- One styled character of a logical line (the canonical form of the
spec's "growable sequence of styled runs"). -/
structure StyledChar where
  ch : Char
  fg : Nat
  bg : Nat
deriving DecidableEq

/-- A logical line of the widget's ring. -/
abbrev Line := List StyledChar

/-- Total column width of a line. -/
def lineCols (l : Line) : Nat := (l.map (fun sc => charWidth sc.ch)).sum

/-- Modelled from the spec: StreamWidget state (§3): a bounded ring of
logical lines whose last element is the write head, the pen, a scroll
offset from the bottom (0 = follow tail), the placement rectangle, and the
`max_lines` / `max_line_cols` bounds. -/
structure StreamState where
  x : Nat
  y : Nat
  w : Nat
  h : Nat
  lines : List Line
  fg : Nat
  bg : Nat
  scroll_offset : Nat
  max_lines : Nat
  max_line_cols : Nat
deriving DecidableEq

/-- `flywheel_stream_new(x, y, width, height)`: one empty write-head line,
pen at defaults, following the tail. -/
def flywheel_stream_new (x y w h : Nat) : StreamState :=
  { x := x, y := y, w := w, h := h, lines := [[]]
    fg := defaultFg, bg := defaultBg, scroll_offset := 0
    max_lines := 1000, max_line_cols := w }

/-- The write-head line (the last line of the ring). -/
def tailLine (s : StreamState) : Line := (s.lines.getLast?).getD []

/-- Replace the last line of the ring. -/
def setTail (lines : List Line) (t : Line) : List Line :=
  lines.dropLast ++ [t]

/-- The widget with its write-head line replaced. -/
def StreamState.withTail (s : StreamState) (t : Line) : StreamState :=
  { s with lines := setTail s.lines t }

/-- Push a fresh write-head line; "if ring is full, drop front". -/
def StreamState.pushLine (s : StreamState) : StreamState :=
  let ls := s.lines ++ [[]]
  { s with lines :=
      if s.max_lines < ls.length then ls.drop (ls.length - s.max_lines)
      else ls }

/-- Modelled from the spec: the slow path's per-character step: newline
pushes a new write-head line, tab pads with spaces to the next multiple of
8, other control bytes are discarded, and a printable character is
soft-wrapped (a glyph that would cross `max_line_cols` begins the next
line, never split). -/
def StreamState.putChar (s : StreamState) (c : Char) : StreamState :=
  if c = Char.ofNat 10 then s.pushLine
  else if c = Char.ofNat 9 then
    let t := tailLine s
    s.withTail (t ++ List.replicate (8 - lineCols t % 8) ⟨' ', s.fg, s.bg⟩)
  else if isCtrlChar c then s
  else
    let t := tailLine s
    if s.max_line_cols < lineCols t + charWidth c then
      let s2 := s.pushLine
      s2.withTail (tailLine s2 ++ [⟨c, s.fg, s.bg⟩])
    else s.withTail (t ++ [⟨c, s.fg, s.bg⟩])

/-- U+FFFD, the replacement character. -/
def replacementChar : Char := Char.ofNat 0xfffd

/-- Is the byte a UTF-8 continuation byte (0x80–0xBF)? -/
def isCont (b : Nat) : Bool := 0x80 ≤ b && b ≤ 0xbf

/-- Valid second-byte range for a three-byte lead (E0 → A0–BF, ED → 80–9F,
else any continuation), excluding overlong forms and surrogates. -/
def cont3ok (b1 b2 : Nat) : Bool :=
  if b1 = 0xe0 then 0xa0 ≤ b2 && b2 ≤ 0xbf
  else if b1 = 0xed then 0x80 ≤ b2 && b2 ≤ 0x9f
  else isCont b2

/-- Valid second-byte range for a four-byte lead (F0 → 90–BF, F4 → 80–8F,
else any continuation). -/
def cont4ok (b1 b2 : Nat) : Bool :=
  if b1 = 0xf0 then 0x90 ≤ b2 && b2 ≤ 0xbf
  else if b1 = 0xf4 then 0x80 ≤ b2 && b2 ≤ 0x8f
  else isCont b2

/-- Modelled from the spec: UTF-8 decoding step with a fuel counter (the
caller supplies the byte count, which always suffices since every step
consumes at least one byte).  Each maximal ill-formed subsequence yields a
single U+FFFD: the longest valid initial part of a sequence is consumed
per replacement, at least one byte. -/
def decodeUtf8Aux : Nat → List Nat → List Char
  | 0, _ => []
  | _ + 1, [] => []
  | fuel + 1, b1 :: rest =>
    if b1 < 0x80 then Char.ofNat b1 :: decodeUtf8Aux fuel rest
    else if 0xc2 ≤ b1 && b1 ≤ 0xdf then
      match rest with
      | [] => [replacementChar]
      | b2 :: rest2 =>
        if isCont b2 then
          Char.ofNat ((b1 - 0xc0) * 0x40 + (b2 - 0x80)) ::
            decodeUtf8Aux fuel rest2
        else replacementChar :: decodeUtf8Aux fuel (b2 :: rest2)
    else if 0xe0 ≤ b1 && b1 ≤ 0xef then
      match rest with
      | [] => [replacementChar]
      | b2 :: rest2 =>
        if cont3ok b1 b2 then
          match rest2 with
          | [] => [replacementChar]
          | b3 :: rest3 =>
            if isCont b3 then
              Char.ofNat
                  (((b1 - 0xe0) * 0x40 + (b2 - 0x80)) * 0x40 + (b3 - 0x80)) ::
                decodeUtf8Aux fuel rest3
            else replacementChar :: decodeUtf8Aux fuel (b3 :: rest3)
        else replacementChar :: decodeUtf8Aux fuel (b2 :: rest2)
    else if 0xf0 ≤ b1 && b1 ≤ 0xf4 then
      match rest with
      | [] => [replacementChar]
      | b2 :: rest2 =>
        if cont4ok b1 b2 then
          match rest2 with
          | [] => [replacementChar]
          | b3 :: rest3 =>
            if isCont b3 then
              match rest3 with
              | [] => [replacementChar]
              | b4 :: rest4 =>
                if isCont b4 then
                  Char.ofNat
                      ((((b1 - 0xf0) * 0x40 + (b2 - 0x80)) * 0x40 +
                          (b3 - 0x80)) * 0x40 + (b4 - 0x80)) ::
                    decodeUtf8Aux fuel rest4
                else replacementChar :: decodeUtf8Aux fuel (b4 :: rest4)
            else replacementChar :: decodeUtf8Aux fuel (b3 :: rest3)
        else replacementChar :: decodeUtf8Aux fuel (b2 :: rest2)
    else replacementChar :: decodeUtf8Aux fuel rest

/-- Modelled from the spec: UTF-8 decoding of a whole byte string, one
U+FFFD per maximal ill-formed subsequence. -/
def decodeUtf8 (bytes : List Nat) : List Char :=
  decodeUtf8Aux bytes.length bytes

/-- A printable ASCII byte (0x20–0x7E): no control bytes, width 1. -/
def printableAscii (b : Nat) : Bool := 0x20 ≤ b && b ≤ 0x7e

/-- Modelled from the spec: the fast-path test — the text "is pure ASCII
printable, contains no `\n`/`\r`/`\t`/ESC, and, appended to the write-head
line, keeps its column width ≤ `max_line_cols` and the write head is the
visible tail row" (`scroll_offset = 0`). -/
def StreamState.isFastInput (s : StreamState) (bytes : List Nat) : Bool :=
  bytes.all printableAscii &&
  decide (lineCols (tailLine s) + bytes.length ≤ s.max_line_cols) &&
  decide (s.scroll_offset = 0)

/-- The fast path: "directly extends the tail line with a single styled run
using the current pen". -/
def StreamState.fastAppend (s : StreamState) (bytes : List Nat) : StreamState :=
  s.withTail (tailLine s ++ bytes.map (fun b => ⟨Char.ofNat b, s.fg, s.bg⟩))

/-- The slow path: decode UTF-8 (U+FFFD for each maximal ill-formed
subsequence) and process character by character. -/
def StreamState.slowAppend (s : StreamState) (bytes : List Nat) : StreamState :=
  (decodeUtf8 bytes).foldl StreamState.putChar s

/-- `append(text)`: returns 1 and takes the fast path when possible, else
returns 0 and takes the slow path. -/
def StreamState.append (s : StreamState) (bytes : List Nat) :
    Int × StreamState :=
  if s.isFastInput bytes then (1, s.fastAppend bytes)
  else (0, s.slowAppend bytes)

/-- Upper bound of the scroll offset: `max(0, line_count - h)` (saturating
natural subtraction). -/
def StreamState.maxScroll (s : StreamState) : Nat := s.lines.length - s.h

/-- `scroll_up(n)`: increase the offset, saturating at `maxScroll`. -/
def StreamState.scroll_up (s : StreamState) (n : Nat) : StreamState :=
  { s with scroll_offset := min (s.scroll_offset + n) s.maxScroll }

/-- `scroll_down(n)`: decrease the offset, saturating at 0. -/
def StreamState.scroll_down (s : StreamState) (n : Nat) : StreamState :=
  { s with scroll_offset := s.scroll_offset - n }

/-- `clear()`: drops all lines, resets offset and pen. -/
def StreamState.clearAll (s : StreamState) : StreamState :=
  { s with lines := [[]], scroll_offset := 0
           fg := defaultFg, bg := defaultBg }

/-- One scroll call: `true` scrolls up by `n`, `false` scrolls down. -/
def applyScroll (s : StreamState) : Bool × Nat → StreamState
  | (true, n) => s.scroll_up n
  | (false, n) => s.scroll_down n

/-- A finite sequence of scroll calls. -/
def applyScrolls (ops : List (Bool × Nat)) (s : StreamState) : StreamState :=
  ops.foldl applyScroll s

/- ============================================================
   Stream C ABI layer
   ============================================================ -/

/-- `flywheel_stream_append`: −1 on a null handle, else 1 (fast path) or
0 (slow path). -/
def flywheel_stream_append :
    Option StreamState → List Nat → Int × Option StreamState
  | none, _ => (-1, none)
  | some s, bytes => ((s.append bytes).1, some (s.append bytes).2)

/-- `flywheel_stream_clear`: void no-op on a null handle. -/
def flywheel_stream_clear : Option StreamState → Option StreamState
  | none => none
  | some s => some s.clearAll

/-- `flywheel_stream_set_fg`: void no-op on a null handle. -/
def flywheel_stream_set_fg (h : Option StreamState) (color : Nat) :
    Option StreamState :=
  match h with
  | none => none
  | some s => some { s with fg := color }

/-- `flywheel_stream_set_bg`: void no-op on a null handle. -/
def flywheel_stream_set_bg (h : Option StreamState) (color : Nat) :
    Option StreamState :=
  match h with
  | none => none
  | some s => some { s with bg := color }

/-- `flywheel_stream_scroll_up`: void no-op on a null handle. -/
def flywheel_stream_scroll_up (h : Option StreamState) (n : Nat) :
    Option StreamState :=
  match h with
  | none => none
  | some s => some (s.scroll_up n)

/-- `flywheel_stream_scroll_down`: void no-op on a null handle. -/
def flywheel_stream_scroll_down (h : Option StreamState) (n : Nat) :
    Option StreamState :=
  match h with
  | none => none
  | some s => some (s.scroll_down n)

/- ============================================================
   Helper lemmas
   ============================================================ -/

theorem applyCmds_append (l1 l2 : List TermCmd) (t : Terminal) :
    applyCmds (l1 ++ l2) t = applyCmds l2 (applyCmds l1 t) :=
  List.foldl_append applyCmd t l1 l2

theorem drawTextAux_oob (fg bg y : Nat) (s : List Char) :
    ∀ (b : CellBuffer) (x cols : Nat), b.width ≤ x ∨ b.height ≤ y →
    drawTextAux fg bg y b x s cols = (b, cols) := by
  induction s with
  | nil => intro b x cols _; rfl
  | cons c rest ih =>
    intro b x cols h
    unfold drawTextAux
    by_cases hc : isCtrlChar c
    · simp [hc]
    · by_cases hw : isWideChar c
      · have hcond : ¬(x + 1 < b.width ∧ y < b.height) := by omega
        simp only [hc, hw, hcond, if_false, if_true, Bool.false_eq_true]
        exact ih b (x + 2) cols (by omega)
      · have hcond : ¬(x < b.width ∧ y < b.height) := by omega
        simp [hc, hw, hcond]

theorem applyScroll_fields (s : StreamState) (op : Bool × Nat) :
    (applyScroll s op).lines = s.lines ∧ (applyScroll s op).h = s.h := by
  rcases op with ⟨b, n⟩
  cases b <;> exact ⟨rfl, rfl⟩

theorem applyScroll_bound (s : StreamState) (op : Bool × Nat)
    (hs : s.scroll_offset ≤ s.maxScroll) :
    (applyScroll s op).scroll_offset ≤ (applyScroll s op).maxScroll := by
  rcases op with ⟨b, n⟩
  cases b
  · exact le_trans (Nat.sub_le _ _) hs
  · exact min_le_right _ _

/- ============================================================
   Claim theorems
   ============================================================ -/

/-- C10: `flywheel_version` always returns a non-null pointer to a static
string equal to "0.1.0", the value of the `FLYWHEEL_VERSION` macro; the
function is a constant, so the returned string is identical on every
call. -/
theorem version_constant :
    flywheel_version = some "0.1.0" ∧
    flywheel_version = some FLYWHEEL_VERSION ∧
    flywheel_version ≠ none := by
  refine ⟨rfl, rfl, ?_⟩
  simp [flywheel_version]

/-- C6: every FFI function called with a null handle returns its
documented sentinel and performs no other effect: width and height return
0, `poll_event` returns `NONE`, `stream_append` returns −1, `is_running`
returns false, and void functions are no-ops. -/
theorem ffi_null_handles (t x y w h fg bg n color : Nat) (ch : Char)
    (s : List Char) (bytes : List Nat) :
    flywheel_engine_width none = 0 ∧
    flywheel_engine_height none = 0 ∧
    (flywheel_engine_poll_event none).1 = FlywheelEventType.NONE ∧
    (flywheel_stream_append none bytes).1 = -1 ∧
    flywheel_engine_is_running none = false ∧
    flywheel_engine_stop none = none ∧
    flywheel_engine_begin_frame none = none ∧
    flywheel_engine_end_frame none t = (none, []) ∧
    flywheel_engine_set_cell none x y ch fg bg = none ∧
    flywheel_engine_draw_text none x y s fg bg = (none, 0) ∧
    flywheel_engine_handle_resize none w h = none ∧
    flywheel_engine_request_redraw none = none ∧
    flywheel_engine_request_update none = none ∧
    flywheel_engine_clear none = none ∧
    flywheel_engine_fill_rect none x y w h ch fg bg = none ∧
    flywheel_stream_clear none = none ∧
    flywheel_stream_set_fg none color = none ∧
    flywheel_stream_set_bg none color = none ∧
    flywheel_stream_scroll_up none n = none ∧
    flywheel_stream_scroll_down none n = none :=
  ⟨rfl, rfl, rfl, rfl, rfl, rfl, rfl, rfl, rfl, rfl, rfl, rfl, rfl, rfl,
   rfl, rfl, rfl, rfl, rfl, rfl⟩

/-- C3: for every coordinate with `x ≥ width` or `y ≥ height`, `set_cell`
and `draw_text` targeting that coordinate leave the cell buffer
bit-identical and report no error (`draw_text` returns 0 columns written;
the writes are silently clipped no-ops). -/
theorem oob_writes_noop (b : CellBuffer) (x y : Nat) (c : Cell)
    (s : List Char) (fg bg : Nat) (h : b.width ≤ x ∨ b.height ≤ y) :
    b.set x y c = b ∧ b.drawText x y s fg bg = (b, 0) := by
  constructor
  · unfold CellBuffer.set
    have hcond : ¬(x < b.width ∧ y < b.height) := by omega
    simp [hcond]
  · exact drawTextAux_oob fg bg y s b x 0 h

/-- Witness for C3 at a 2×2 buffer and coordinate (5, 0). -/
theorem oob_writes_noop_witness :
    (emptyBuffer 2 2 0).set 5 0 emptyCell = emptyBuffer 2 2 0 ∧
    (emptyBuffer 2 2 0).drawText 5 0 [Char.ofNat 97] 0 0 =
      (emptyBuffer 2 2 0, 0) :=
  oob_writes_noop (emptyBuffer 2 2 0) 5 0 emptyCell [Char.ofNat 97] 0 0
    (Or.inl (by decide))

/-- C7: after any finite sequence of `scroll_up(n)` / `scroll_down(n)`
calls on a stream widget whose offset is in bounds, the scroll offset
stays in `[0, max(0, line_count − h)]` (`maxScroll` is the saturating
natural subtraction `line_count − h`; the lower bound 0 is inherent to
`Nat`); both operations saturate at these bounds. -/
theorem scroll_offset_bounded (ops : List (Bool × Nat)) (s : StreamState)
    (hs : s.scroll_offset ≤ s.maxScroll) :
    (applyScrolls ops s).scroll_offset ≤ (applyScrolls ops s).maxScroll := by
  induction ops generalizing s with
  | nil => exact hs
  | cons op rest ih =>
    have hstep := applyScroll_bound s op hs
    simpa [applyScrolls, List.foldl_cons] using ih (applyScroll s op) hstep

/-- Witness for C7: a fresh 10×3 widget scrolled up 5 then down 2. -/
theorem scroll_offset_bounded_witness :
    (applyScrolls [(true, 5), (false, 2)]
        (flywheel_stream_new 0 0 10 3)).scroll_offset ≤
      (applyScrolls [(true, 5), (false, 2)]
        (flywheel_stream_new 0 0 10 3)).maxScroll :=
  scroll_offset_bounded [(true, 5), (false, 2)] (flywheel_stream_new 0 0 10 3)
    (by decide)

/-- C9: in every engine state with `running = false` (Stopping/Stopped),
draw primitives never modify the back buffer, `poll_event` returns `NONE`,
and `end_frame` never writes to the terminal; `stop()` yields such a
state, and so does polling a queued `Shutdown` event. -/
theorem stopped_engine_inert (e : Engine) (x y w h fg bg now : Nat)
    (ch : Char) (s : List Char) (hstop : e.running = false) :
    (e.stop).running = false ∧
    e.set_cell x y ch fg bg = e ∧
    e.draw_text x y s fg bg = (e, 0) ∧
    e.fill_rect x y w h ch fg bg = e ∧
    e.clearBack = e ∧
    e.poll_event = (FlywheelEventType.NONE, e) ∧
    e.end_frame now = (e, []) ∧
    (∀ e2 : Engine, ∀ rest : List InputEvent,
      e2.events = InputEvent.shutdown :: rest →
      ((e2.poll_event).2.running = false)) := by
    refine ⟨rfl, ?_, ?_, ?_, ?_, ?_, ?_, ?_⟩
    · simp [Engine.set_cell, hstop]
    · simp [Engine.draw_text, hstop]
    · simp [Engine.fill_rect, hstop]
    · simp [Engine.clearBack, hstop]
    · simp [Engine.poll_event, hstop]
    · simp [Engine.end_frame, hstop]
    · intro e2 rest hq
      by_cases hr : e2.running <;> simp [Engine.poll_event, hr, hq]

/-- Witness for C9 at a freshly stopped 2×2 engine. -/
theorem stopped_engine_inert_witness :
    ((mkEngine 2 2).stop.stop).running = false ∧
    (mkEngine 2 2).stop.set_cell 0 0 'a' 0 0 = (mkEngine 2 2).stop ∧
    (mkEngine 2 2).stop.draw_text 0 0 ['a'] 0 0 = ((mkEngine 2 2).stop, 0) ∧
    (mkEngine 2 2).stop.fill_rect 0 0 1 1 'a' 0 0 = (mkEngine 2 2).stop ∧
    (mkEngine 2 2).stop.clearBack = (mkEngine 2 2).stop ∧
    (mkEngine 2 2).stop.poll_event =
      (FlywheelEventType.NONE, (mkEngine 2 2).stop) ∧
    (mkEngine 2 2).stop.end_frame 100 = ((mkEngine 2 2).stop, []) ∧
    (∀ e2 : Engine, ∀ rest : List InputEvent,
      e2.events = InputEvent.shutdown :: rest →
      ((e2.poll_event).2.running = false)) :=
  stopped_engine_inert ((mkEngine 2 2).stop) 0 0 1 1 0 0 100 'a' ['a'] rfl

/-- C2: after every `end_frame` that performs a flush (engine running and
the pacing interval elapsed), the front buffer equals the back buffer
cell-for-cell and every per-row dirty bit of both buffers is cleared. -/
theorem end_frame_flush_swaps (e : Engine) (now : Nat)
    (hrun : e.running = true) (hdue : flushDue e now = true) :
    (∀ x y : Nat,
      (e.end_frame now).1.front.get x y = (e.end_frame now).1.back.get x y) ∧
    (∀ y : Nat, (e.end_frame now).1.front.dirty y = false ∧
      (e.end_frame now).1.back.dirty y = false) := by
  simp [Engine.end_frame, hrun, hdue]

/-- Witness for C2 at a fresh 2×2 engine flushed at t = 100 ms. -/
theorem end_frame_flush_swaps_witness :
    (∀ x y : Nat,
      ((mkEngine 2 2).end_frame 100).1.front.get x y =
        ((mkEngine 2 2).end_frame 100).1.back.get x y) ∧
    (∀ y : Nat, ((mkEngine 2 2).end_frame 100).1.front.dirty y = false ∧
      ((mkEngine 2 2).end_frame 100).1.back.dirty y = false) :=
  end_frame_flush_swaps (mkEngine 2 2) 100 rfl (by decide)

/-- C5: for every non-null stream handle and text — including invalid
UTF-8, which the spec-modelled decoder `decodeUtf8` replaces with one
U+FFFD per maximal ill-formed subsequence — `stream_append` returns 0 or
1 (per slow/fast path) and never −1. -/
theorem stream_append_total (s : StreamState) (bytes : List Nat) :
    ((flywheel_stream_append (some s) bytes).1 = 0 ∨
      (flywheel_stream_append (some s) bytes).1 = 1) ∧
    (flywheel_stream_append (some s) bytes).1 ≠ -1 := by
  by_cases hf : s.isFastInput bytes = true <;>
    simp [flywheel_stream_append, StreamState.append, hf]

theorem diffFrame_clean (prev curr : CellBuffer)
    (hd : ∀ y, curr.dirty y = false) :
    diffFrame prev curr false = [TermCmd.showCursor, TermCmd.resetSGR] := by
  unfold diffFrame
  have hfilter :
      (List.range curr.height).filter (fun y => curr.dirty y) = [] :=
    List.filter_eq_nil_iff.mpr (fun a _ => by simp [hd])
  simp [hfilter, rowsEmit]

/-- C8: two consecutive `end_frame` calls with no intervening draw
operations (the first performing a flush) are idempotent on the terminal:
the second emits no cell-update bytes, at most the trailing show-cursor
and SGR-reset bytes. -/
theorem consecutive_end_frames_no_updates (e : Engine) (t1 t2 : Nat)
    (hrun : e.running = true) (hdue : flushDue e t1 = true) :
    ∀ c ∈ ((e.end_frame t1).1.end_frame t2).2,
      c = TermCmd.showCursor ∨ c = TermCmd.resetSGR := by
  intro c hc
  obtain ⟨e1, he1⟩ : ∃ e1, (e.end_frame t1).1 = e1 := ⟨_, rfl⟩
  have hrun1 : e1.running = true := by
    rw [← he1]; simp [Engine.end_frame, hrun, hdue]
  have hdirty1 : ∀ y, e1.back.dirty y = false := by
    rw [← he1]; simp [Engine.end_frame, hrun, hdue]
  have hforce1 : e1.force_full_redraw = false := by
    rw [← he1]; simp [Engine.end_frame, hrun, hdue]
  rw [he1] at hc
  rcases Bool.eq_false_or_eq_true (flushDue e1 t2) with h2 | h2
  · have hout : (e1.end_frame t2).2 =
        diffFrame e1.front e1.back e1.force_full_redraw := by
      simp [Engine.end_frame, hrun1, h2]
    rw [hout, hforce1, diffFrame_clean _ _ hdirty1] at hc
    simpa using hc
  · have hout : (e1.end_frame t2).2 = [] := by
      simp [Engine.end_frame, hrun1, h2]
    rw [hout] at hc
    simp at hc

/-- Witness for C8 at a fresh 2×2 engine flushed at 100 ms then 200 ms,
instantiated at the show-cursor command of the second output. -/
theorem consecutive_end_frames_no_updates_witness :
    TermCmd.showCursor = TermCmd.showCursor ∨
      TermCmd.showCursor = TermCmd.resetSGR :=
  consecutive_end_frames_no_updates (mkEngine 2 2) 100 200 rfl (by decide)
    TermCmd.showCursor (by decide)

theorem toNat_ofNat_printable (b : Nat) (h1 : 0x20 ≤ b) (h2 : b ≤ 0x7e) :
    (Char.ofNat b).toNat = b := by
  have hv : b.isValidChar := Or.inl (by omega)
  simp only [Char.ofNat, hv, dif_pos, Char.ofNatAux, Char.toNat]
  simp [UInt32.toNat, BitVec.toNat_ofNatLt]

theorem printable_char_props (b : Nat) (h1 : 0x20 ≤ b) (h2 : b ≤ 0x7e) :
    isCtrlChar (Char.ofNat b) = false ∧ isWideChar (Char.ofNat b) = false ∧
    charWidth (Char.ofNat b) = 1 ∧ Char.ofNat b ≠ Char.ofNat 10 ∧
    Char.ofNat b ≠ Char.ofNat 9 := by
  have ht := toNat_ofNat_printable b h1 h2
  have hc : isCtrlChar (Char.ofNat b) = false := by
    simp [isCtrlChar, ht]; omega
  have hw : isWideChar (Char.ofNat b) = false := by
    simp [isWideChar, ht]; omega
  refine ⟨hc, hw, by simp [charWidth, hc, hw], ?_, ?_⟩
  · intro heq
    have h10 : (Char.ofNat 10).toNat = 10 := by decide
    rw [heq, h10] at ht
    omega
  · intro heq
    have h9 : (Char.ofNat 9).toNat = 9 := by decide
    rw [heq, h9] at ht
    omega

theorem decodeUtf8_ascii (bytes : List Nat)
    (h : ∀ b ∈ bytes, printableAscii b = true) :
    decodeUtf8 bytes = bytes.map Char.ofNat := by
  induction bytes with
  | nil => rfl
  | cons b rest ih =>
    have hb := h b (List.mem_cons_self b rest)
    have hlt : b < 0x80 := by
      simp [printableAscii] at hb
      omega
    have hstep : decodeUtf8 (b :: rest) = Char.ofNat b :: decodeUtf8 rest := by
      show decodeUtf8Aux (rest.length + 1) (b :: rest) =
        Char.ofNat b :: decodeUtf8Aux rest.length rest
      rw [decodeUtf8Aux.eq_def]
      exact if_pos hlt
    rw [hstep, List.map_cons]
    exact congrArg _ (ih (fun b' hb' => h b' (List.mem_cons_of_mem b hb')))

theorem tailLine_withTail (s : StreamState) (t : Line) :
    tailLine (s.withTail t) = t := by
  simp [tailLine, StreamState.withTail, setTail, List.getLast?_concat]

theorem withTail_withTail (s : StreamState) (t t' : Line) :
    (s.withTail t).withTail t' = s.withTail t' := by
  simp [StreamState.withTail, setTail, List.dropLast_concat]

theorem withTail_self (s : StreamState) (h : s.lines ≠ []) :
    s.withTail (tailLine s) = s := by
  cases hl : s.lines.getLast? with
  | none => exact absurd (List.getLast?_eq_none_iff.mp hl) h
  | some a =>
    have : setTail s.lines (tailLine s) = s.lines := by
      simp [tailLine, hl, setTail]
      exact List.dropLast_append_getLast? a hl
    simp [StreamState.withTail, this]

theorem lineCols_append (l1 l2 : Line) :
    lineCols (l1 ++ l2) = lineCols l1 + lineCols l2 := by
  simp [lineCols]

theorem putChar_printable (s : StreamState) (b : Nat)
    (hp : printableAscii b = true)
    (hfit : lineCols (tailLine s) + 1 ≤ s.max_line_cols) :
    s.putChar (Char.ofNat b) =
      s.withTail (tailLine s ++ [⟨Char.ofNat b, s.fg, s.bg⟩]) := by
  have hb : 0x20 ≤ b ∧ b ≤ 0x7e := by simpa [printableAscii] using hp
  obtain ⟨hctrl, -, hwidth, hnl, htab⟩ := printable_char_props b hb.1 hb.2
  unfold StreamState.putChar
  have hwrap :
      ¬ s.max_line_cols < lineCols (tailLine s) + charWidth (Char.ofNat b) := by
    rw [hwidth]; omega
  simp [hnl, htab, hctrl, hwrap]

theorem slow_fast_aux (bytes : List Nat) : ∀ s : StreamState,
    s.lines ≠ [] →
    (∀ b ∈ bytes, printableAscii b = true) →
    lineCols (tailLine s) + bytes.length ≤ s.max_line_cols →
    (bytes.map Char.ofNat).foldl StreamState.putChar s =
      s.withTail (tailLine s ++
        bytes.map (fun b => ⟨Char.ofNat b, s.fg, s.bg⟩)) := by
  induction bytes with
  | nil =>
    intro s hne _ _
    simpa using (withTail_self s hne).symm
  | cons b rest ih =>
    intro s hne hall hfit
    have hb := hall b (List.mem_cons_self b rest)
    have hb' : 0x20 ≤ b ∧ b ≤ 0x7e := by simpa [printableAscii] using hb
    have hstep := putChar_printable s b hb
      (by simp at hfit; omega)
    have hwidth := (printable_char_props b hb'.1 hb'.2).2.2.1
    simp only [List.map_cons, List.foldl_cons, hstep]
    have hne' : (s.withTail (tailLine s ++ [⟨Char.ofNat b, s.fg, s.bg⟩])).lines ≠ [] := by
      simp [StreamState.withTail, setTail]
    have hfit' :
        lineCols (tailLine (s.withTail (tailLine s ++ [⟨Char.ofNat b, s.fg, s.bg⟩]))) +
          rest.length ≤
        (s.withTail (tailLine s ++ [⟨Char.ofNat b, s.fg, s.bg⟩])).max_line_cols := by
      rw [tailLine_withTail, lineCols_append]
      simp only [StreamState.withTail]
      simp [lineCols, hwidth] at hfit ⊢
      omega
    rw [ih _ hne' (fun b' hb2 => hall b' (List.mem_cons_of_mem b hb2)) hfit']
    rw [tailLine_withTail, withTail_withTail]
    simp [StreamState.withTail, List.append_assoc]

/-- C4: for text that is pure printable ASCII (no control bytes) whose
columns appended to the write-head line stay within `max_line_cols` while
the write head is the visible tail row (`isFastInput`), `append` takes the
fast path, returns 1, and the fast path's resulting widget state equals
the slow path's (the ring being nonempty is the spec's write-head
invariant). -/
theorem fast_path_equiv (s : StreamState) (bytes : List Nat)
    (hne : s.lines ≠ []) (hfast : s.isFastInput bytes = true) :
    s.append bytes = (1, s.fastAppend bytes) ∧
    s.fastAppend bytes = s.slowAppend bytes := by
  refine ⟨by simp [StreamState.append, hfast], ?_⟩
  have hfast' := hfast
  simp only [StreamState.isFastInput, Bool.and_eq_true, List.all_eq_true,
    decide_eq_true_eq] at hfast'
  obtain ⟨⟨hall, hcols⟩, -⟩ := hfast'
  unfold StreamState.slowAppend StreamState.fastAppend
  rw [decodeUtf8_ascii bytes hall, slow_fast_aux bytes s hne hall hcols]

/-- Witness for C4: a fresh 20×3 widget appending "hi". -/
theorem fast_path_equiv_witness :
    (flywheel_stream_new 0 0 20 3).append [104, 105] =
      (1, (flywheel_stream_new 0 0 20 3).fastAppend [104, 105]) ∧
    (flywheel_stream_new 0 0 20 3).fastAppend [104, 105] =
      (flywheel_stream_new 0 0 20 3).slowAppend [104, 105] :=
  fast_path_equiv (flywheel_stream_new 0 0 20 3) [104, 105]
    (by simp [flywheel_stream_new]) (by decide)

theorem applyCmds_sgrCmds (pen : Pen) (cl : Cell) (t : Terminal)
    (hf : t.fg = pen.fg) (hb : t.bg = pen.bg) :
    (applyCmds (sgrCmds pen cl) t).grid = t.grid ∧
    (applyCmds (sgrCmds pen cl) t).curX = t.curX ∧
    (applyCmds (sgrCmds pen cl) t).curY = t.curY ∧
    (applyCmds (sgrCmds pen cl) t).fg = cl.fg ∧
    (applyCmds (sgrCmds pen cl) t).bg = cl.bg ∧
    (applyCmds (sgrCmds pen cl) t).cursorVisible = t.cursorVisible := by
  unfold sgrCmds
  by_cases h1 : cl.fg = pen.fg <;> by_cases h2 : cl.bg = pen.bg <;>
    simp [h1, h2, applyCmds, applyCmd, hf, hb]

theorem rowEmitAux_correct (p c : Nat → Nat → Cell) (y w : Nat) :
    ∀ (rem x : Nat) (pen : Pen) (inRun : Bool) (t : Terminal),
    x + rem = w →
    t.fg = pen.fg → t.bg = pen.bg →
    (inRun = true → t.curX = x ∧ t.curY = y) →
    (∀ a b, (b ≠ y ∨ a < x ∨ w ≤ a) →
      (applyCmds (rowEmitAux p c y w rem x pen inRun).1 t).grid a b =
        t.grid a b) ∧
    (∀ a, x ≤ a → a < w →
      (applyCmds (rowEmitAux p c y w rem x pen inRun).1 t).grid a y =
        (if emittedAt p c y w a = true then c a y else t.grid a y)) ∧
    (applyCmds (rowEmitAux p c y w rem x pen inRun).1 t).fg =
      (rowEmitAux p c y w rem x pen inRun).2.fg ∧
    (applyCmds (rowEmitAux p c y w rem x pen inRun).1 t).bg =
      (rowEmitAux p c y w rem x pen inRun).2.bg ∧
    (applyCmds (rowEmitAux p c y w rem x pen inRun).1 t).cursorVisible =
      t.cursorVisible := by
  intro rem
  induction rem with
  | zero =>
    intro x pen inRun t hxw hf hb _
    exact ⟨fun _ _ _ => rfl,
      fun a hxa haw => ((by omega : False).elim),
      hf, hb, rfl⟩
  | succ rem ih =>
    intro x pen inRun t hxw hf hb hcur
    have hxlt : x < w := by omega
    by_cases hem : emittedAt p c y w x = true
    · -- the column is emitted: position (if needed), SGR, character
      have hstep : rowEmitAux p c y w (rem + 1) x pen inRun =
          ((if inRun then [] else [TermCmd.cursorPos x y]) ++
             sgrCmds pen (c x y) ++
             (TermCmd.putCell (c x y).ch ::
               (rowEmitAux p c y w rem (x + 1)
                 ⟨(c x y).fg, (c x y).bg⟩ true).1),
           (rowEmitAux p c y w rem (x + 1) ⟨(c x y).fg, (c x y).bg⟩ true).2) := by
        rw [rowEmitAux]
        simp only [hem, if_pos]
      have hpos :
          (applyCmds (if inRun then [] else [TermCmd.cursorPos x y]) t).curX = x ∧
          (applyCmds (if inRun then [] else [TermCmd.cursorPos x y]) t).curY = y ∧
          (applyCmds (if inRun then [] else [TermCmd.cursorPos x y]) t).grid = t.grid ∧
          (applyCmds (if inRun then [] else [TermCmd.cursorPos x y]) t).fg = t.fg ∧
          (applyCmds (if inRun then [] else [TermCmd.cursorPos x y]) t).bg = t.bg ∧
          (applyCmds (if inRun then [] else [TermCmd.cursorPos x y]) t).cursorVisible =
            t.cursorVisible := by
        cases inRun with
        | false => simp [applyCmds, applyCmd]
        | true =>
          obtain ⟨hcx, hcy⟩ := hcur rfl
          simp [applyCmds, hcx, hcy]
      obtain ⟨p1, p2, p3, p4, p5, p6⟩ := hpos
      obtain ⟨s1, s2, s3, s4, s5, s6⟩ :=
        applyCmds_sgrCmds pen (c x y)
          (applyCmds (if inRun then [] else [TermCmd.cursorPos x y]) t)
          (p4.trans hf) (p5.trans hb)
      -- the terminal after position + SGR + putCell
      obtain ⟨t2, ht2⟩ : ∃ t2, applyCmd
          (applyCmds (sgrCmds pen (c x y))
            (applyCmds (if inRun then [] else [TermCmd.cursorPos x y]) t))
          (TermCmd.putCell (c x y).ch) = t2 := ⟨_, rfl⟩
      have ht2grid : ∀ a b, t2.grid a b =
          (if a = x ∧ b = y then c x y else t.grid a b) := by
        intro a b
        rw [← ht2]
        show (if a = _ ∧ b = _ then (⟨(c x y).ch, _, _⟩ : Cell) else _) = _
        rw [s2.trans p1, s3.trans p2, s4, s5, s1, p3]
      have ht2x : t2.curX = x + 1 := by
        rw [← ht2]; show _ + 1 = x + 1; rw [s2.trans p1]
      have ht2y : t2.curY = y := by
        rw [← ht2]; exact s3.trans p2
      have ht2f : t2.fg = (c x y).fg := by rw [← ht2]; exact s4
      have ht2b : t2.bg = (c x y).bg := by rw [← ht2]; exact s5
      have ht2v : t2.cursorVisible = t.cursorVisible := by
        rw [← ht2]; exact s6.trans p6
      obtain ⟨i1, i2, i3, i4, i5⟩ := ih (x + 1) ⟨(c x y).fg, (c x y).bg⟩ true t2
        (by omega) ht2f ht2b (fun _ => ⟨ht2x, ht2y⟩)
      have happly : applyCmds (rowEmitAux p c y w (rem + 1) x pen inRun).1 t =
          applyCmds
            (rowEmitAux p c y w rem (x + 1) ⟨(c x y).fg, (c x y).bg⟩ true).1
            t2 := by
        rw [hstep]
        show applyCmds (_ ++ _ ++ _) t = _
        rw [applyCmds_append, applyCmds_append, ← ht2]
        rfl
      have hpen2 : (rowEmitAux p c y w (rem + 1) x pen inRun).2 =
          (rowEmitAux p c y w rem (x + 1) ⟨(c x y).fg, (c x y).bg⟩ true).2 := by
        rw [hstep]
      refine ⟨?_, ?_, ?_, ?_, ?_⟩
      · intro a b hab
        rw [happly, i1 a b ?side]
        · rw [ht2grid, if_neg]
          rcases hab with hab | hab | hab
          · exact fun hq => hab hq.2
          · exact fun hq => (by omega : False)
          · exact fun hq => (by omega : False)
        case side =>
          rcases hab with hab | hab | hab
          · exact Or.inl hab
          · exact Or.inr (Or.inl (by omega))
          · exact Or.inr (Or.inr hab)
      · intro a hxa haw
        rcases Nat.eq_or_lt_of_le hxa with heq | hlt
        · subst heq
          rw [happly, i1 x y (Or.inr (Or.inl (by omega)))]
          rw [ht2grid, if_pos ⟨rfl, rfl⟩, if_pos hem]
        · rw [happly, i2 a hlt haw]
          by_cases hem2 : emittedAt p c y w a = true
          · simp [hem2]
          · simp only [hem2, if_false, Bool.false_eq_true]
            rw [ht2grid, if_neg (fun hq => by omega)]
      · rw [happly, hpen2]; exact i3
      · rw [happly, hpen2]; exact i4
      · rw [happly]; exact i5.trans ht2v
    · -- column not emitted: skip it
      have hstep : rowEmitAux p c y w (rem + 1) x pen inRun =
          rowEmitAux p c y w rem (x + 1) pen false := by
        rw [rowEmitAux]
        simp only [hem, if_false, Bool.false_eq_true]
      obtain ⟨i1, i2, i3, i4, i5⟩ := ih (x + 1) pen false t
        (by omega) hf hb (by simp)
      rw [hstep]
      refine ⟨?_, ?_, i3, i4, i5⟩
      · intro a b hab
        apply i1 a b
        rcases hab with hab | hab | hab
        · exact Or.inl hab
        · exact Or.inr (Or.inl (by omega))
        · exact Or.inr (Or.inr hab)
      · intro a hxa haw
        rcases Nat.eq_or_lt_of_le hxa with heq | hlt
        · subst heq
          rw [i1 x y (Or.inr (Or.inl (by omega)))]
          rw [if_neg]
          simpa using hem
        · exact i2 a hlt haw

theorem rowsEmit_correct (p c : Nat → Nat → Cell) (w : Nat) :
    ∀ (rows : List Nat) (pen : Pen) (t : Terminal),
    t.fg = pen.fg → t.bg = pen.bg →
    (∀ a b, b ∉ rows →
      (applyCmds (rowsEmit p c w rows pen).1 t).grid a b = t.grid a b) ∧
    (∀ a b, a < w → b ∈ rows →
      (applyCmds (rowsEmit p c w rows pen).1 t).grid a b =
        (if emittedAt p c b w a = true then c a b else t.grid a b)) ∧
    (applyCmds (rowsEmit p c w rows pen).1 t).fg =
      (rowsEmit p c w rows pen).2.fg ∧
    (applyCmds (rowsEmit p c w rows pen).1 t).bg =
      (rowsEmit p c w rows pen).2.bg ∧
    (applyCmds (rowsEmit p c w rows pen).1 t).cursorVisible =
      t.cursorVisible := by
  intro rows
  induction rows with
  | nil =>
    intro pen t hf hb
    exact ⟨fun _ _ _ => rfl,
      fun a b _ hmem => absurd hmem (List.not_mem_nil b), hf, hb, rfl⟩
  | cons yy rest ih =>
    intro pen t hf hb
    have hstep : rowsEmit p c w (yy :: rest) pen =
        ((rowEmit p c yy w pen).1 ++
          (rowsEmit p c w rest (rowEmit p c yy w pen).2).1,
         (rowsEmit p c w rest (rowEmit p c yy w pen).2).2) := by
      rw [rowsEmit]
    obtain ⟨a1, a2, a3, a4, a5⟩ :=
      rowEmitAux_correct p c yy w w 0 pen false t (by omega) hf hb
        (by simp)
    have hre : rowEmit p c yy w pen = rowEmitAux p c yy w w 0 pen false := rfl
    rw [← hre] at a1 a2 a3 a4 a5
    obtain ⟨b1, b2, b3, b4, b5⟩ := ih (rowEmit p c yy w pen).2
      (applyCmds (rowEmit p c yy w pen).1 t) a3 a4
    have happly : applyCmds (rowsEmit p c w (yy :: rest) pen).1 t =
        applyCmds (rowsEmit p c w rest (rowEmit p c yy w pen).2).1
          (applyCmds (rowEmit p c yy w pen).1 t) := by
      rw [hstep, applyCmds_append]
    refine ⟨?_, ?_, ?_, ?_, ?_⟩
    · intro a b hmem
      rw [happly]
      have hmem' : b ∉ rest := fun hq => hmem (List.mem_cons_of_mem yy hq)
      have hne : b ≠ yy := fun hq => hmem (hq ▸ List.mem_cons_self yy rest)
      rw [b1 a b hmem']
      exact a1 a b (Or.inl hne)
    · intro a b haw hmem
      rw [happly]
      by_cases hrest : b ∈ rest
      · rw [b2 a b haw hrest]
        by_cases hem : emittedAt p c b w a = true
        · simp [hem]
        · simp only [hem, if_false, Bool.false_eq_true]
          by_cases hby : b = yy
          · subst hby
            rw [a2 a (Nat.zero_le a) haw]
            simp [hem]
          · exact a1 a b (Or.inl hby)
      · have hby : b = yy := by
          rcases List.mem_cons.mp hmem with hq | hq
          · exact hq
          · exact absurd hq hrest
        subst hby
        rw [b1 a b hrest]
        exact a2 a (Nat.zero_le a) haw
    · rw [happly, hstep]
      exact b3
    · rw [happly, hstep]
      exact b4
    · rw [happly]
      exact b5.trans a5

theorem diffFrame_correct (prev curr : CellBuffer) (force : Bool)
    (t : Terminal)
    (hw : prev.width = curr.width) (hh : prev.height = curr.height)
    (hdirty : ∀ y, y < curr.height → curr.dirty y = false →
      ∀ x, x < curr.width → curr.grid x y = prev.grid x y)
    (hdisp : displays t prev) :
    ∀ x, x < curr.width → ∀ y, y < curr.height →
      (applyCmds (diffFrame prev curr force) t).grid x y = curr.grid x y := by
  intro x hx y hy
  obtain ⟨hgrid, hfg, hbg⟩ := hdisp
  have hsuffix : ∀ tt : Terminal,
      (applyCmds [TermCmd.showCursor, TermCmd.resetSGR] tt).grid = tt.grid :=
    fun _ => rfl
  cases force with
  | false =>
    have hunf : diffFrame prev curr false =
        (rowsEmit prev.grid curr.grid curr.width
            ((List.range curr.height).filter (fun yy => curr.dirty yy))
            defaultPen).1 ++
          [TermCmd.showCursor, TermCmd.resetSGR] := by
      rw [diffFrame]
      simp
    rw [hunf, applyCmds_append, hsuffix]
    obtain ⟨g1, g2, -, -, -⟩ := rowsEmit_correct prev.grid curr.grid curr.width
      ((List.range curr.height).filter (fun yy => curr.dirty yy)) defaultPen t
      hfg hbg
    by_cases hmem : y ∈ (List.range curr.height).filter (fun yy => curr.dirty yy)
    · rw [g2 x y hx hmem]
      by_cases hem : emittedAt prev.grid curr.grid y curr.width x = true
      · simp [hem]
      · have hsame : curr.grid x y = prev.grid x y := by
          by_contra hne
          exact hem (by simp [emittedAt, diffAt, hne])
        simp only [hem, if_false, Bool.false_eq_true]
        rw [hgrid x (hw ▸ hx) y (hh ▸ hy), hsame]
    · rw [g1 x y hmem]
      have hdy : curr.dirty y = false := by
        rcases Bool.eq_false_or_eq_true (curr.dirty y) with hq | hq
        · exact absurd (List.mem_filter.mpr ⟨List.mem_range.mpr hy, hq⟩) hmem
        · exact hq
      rw [hgrid x (hw ▸ hx) y (hh ▸ hy)]
      exact (hdirty y hy hdy x hx).symm
  | true =>
    have hunf : diffFrame prev curr true =
        [TermCmd.hideCursor, TermCmd.clearScreen, TermCmd.home] ++
          ((rowsEmit (fun _ _ => emptyCell) curr.grid curr.width
              (List.range curr.height) defaultPen).1 ++
            [TermCmd.showCursor, TermCmd.resetSGR]) := by
      rw [diffFrame]
      simp [List.append_assoc]
    rw [hunf, applyCmds_append, applyCmds_append, hsuffix]
    obtain ⟨t1, ht1⟩ : ∃ t1, applyCmds
        [TermCmd.hideCursor, TermCmd.clearScreen, TermCmd.home] t = t1 :=
      ⟨_, rfl⟩
    have ht1grid : ∀ a b, t1.grid a b = emptyCell := by
      intro a b; rw [← ht1]; rfl
    have ht1fg : t1.fg = defaultFg := by rw [← ht1]; exact hfg
    have ht1bg : t1.bg = defaultBg := by rw [← ht1]; exact hbg
    rw [ht1]
    obtain ⟨-, g2, -, -, -⟩ := rowsEmit_correct (fun _ _ => emptyCell)
      curr.grid curr.width (List.range curr.height) defaultPen t1 ht1fg ht1bg
    rw [g2 x y hx (List.mem_range.mpr hy)]
    by_cases hem :
        emittedAt (fun _ _ => emptyCell) curr.grid y curr.width x = true
    · simp [hem]
    · have hsame : curr.grid x y = emptyCell := by
        by_contra hne
        exact hem (by simp [emittedAt, diffAt, hne])
      simp only [hem, if_false, Bool.false_eq_true]
      rw [ht1grid, hsame]

theorem set_preserves (b : CellBuffer) (x y : Nat) (c : Cell) :
    (b.set x y c).width = b.width ∧ (b.set x y c).height = b.height ∧
    (∀ r, b.dirty r = true → (b.set x y c).dirty r = true) := by
  unfold CellBuffer.set
  split
  · refine ⟨rfl, rfl, fun r hr => ?_⟩
    by_cases hq : r = y ∧ c ≠ b.grid x y <;> simp [hq, hr]
  · exact ⟨rfl, rfl, fun _ hr => hr⟩

theorem drawTextAux_preserves (fg bg y : Nat) (s : List Char) :
    ∀ (b : CellBuffer) (x cols : Nat),
    (drawTextAux fg bg y b x s cols).1.width = b.width ∧
    (drawTextAux fg bg y b x s cols).1.height = b.height ∧
    (∀ r, b.dirty r = true →
      (drawTextAux fg bg y b x s cols).1.dirty r = true) := by
  induction s with
  | nil => intro b x cols; exact ⟨rfl, rfl, fun _ h => h⟩
  | cons ch rest ih =>
    intro b x cols
    unfold drawTextAux
    by_cases h1 : isCtrlChar ch
    · simp [h1]
    · by_cases h2 : isWideChar ch
      · by_cases h3 : x + 1 < b.width ∧ y < b.height
        · simp only [h1, h2, h3, if_true, if_false, Bool.false_eq_true]
          obtain ⟨w1, g1, d1⟩ := set_preserves b x y ⟨ch, fg, bg⟩
          obtain ⟨w2, g2, d2⟩ := set_preserves (b.set x y ⟨ch, fg, bg⟩)
            (x + 1) y (sentinelCell fg bg)
          obtain ⟨wi, gi, di⟩ := ih
            ((b.set x y ⟨ch, fg, bg⟩).set (x + 1) y (sentinelCell fg bg))
            (x + 2) (cols + 2)
          exact ⟨wi.trans (w2.trans w1), gi.trans (g2.trans g1),
            fun r hr => di r (d2 r (d1 r hr))⟩
        · simp only [h1, h2, h3, if_true, if_false, Bool.false_eq_true]
          exact ih b (x + 2) cols
      · by_cases h3 : x < b.width ∧ y < b.height
        · simp only [h1, h2, h3, if_true, if_false, Bool.false_eq_true]
          obtain ⟨w1, g1, d1⟩ := set_preserves b x y ⟨ch, fg, bg⟩
          obtain ⟨wi, gi, di⟩ := ih (b.set x y ⟨ch, fg, bg⟩) (x + 1) (cols + 1)
          exact ⟨wi.trans w1, gi.trans g1, fun r hr => di r (d1 r hr)⟩
        · simp [h1, h2, h3]

theorem foldl_set_preserves (f : CellBuffer → Nat → CellBuffer)
    (hf : ∀ b n, (f b n).width = b.width ∧ (f b n).height = b.height ∧
      (∀ r, b.dirty r = true → (f b n).dirty r = true)) :
    ∀ (l : List Nat) (b : CellBuffer),
    (l.foldl f b).width = b.width ∧ (l.foldl f b).height = b.height ∧
    (∀ r, b.dirty r = true → (l.foldl f b).dirty r = true) := by
  intro l
  induction l with
  | nil => intro b; exact ⟨rfl, rfl, fun _ h => h⟩
  | cons n rest ih =>
    intro b
    obtain ⟨w1, g1, d1⟩ := hf b n
    obtain ⟨w2, g2, d2⟩ := ih (f b n)
    simp only [List.foldl_cons]
    exact ⟨w2.trans w1, g2.trans g1, fun r hr => d2 r (d1 r hr)⟩

theorem fillRect_preserves (b : CellBuffer) (x y w h : Nat) (c : Cell) :
    (b.fillRect x y w h c).width = b.width ∧
    (b.fillRect x y w h c).height = b.height ∧
    (∀ r, b.dirty r = true → (b.fillRect x y w h c).dirty r = true) := by
  unfold CellBuffer.fillRect
  exact foldl_set_preserves _
    (fun bb dy => foldl_set_preserves _
      (fun bb2 dx => set_preserves bb2 (x + dx) (y + dy) c) (List.range w) bb)
    (List.range h) b

theorem set_cell_preserves (e : Engine) (x y : Nat) (ch : Char) (fg bg : Nat) :
    (e.set_cell x y ch fg bg).running = e.running ∧
    (e.set_cell x y ch fg bg).front = e.front ∧
    (e.set_cell x y ch fg bg).back.width = e.back.width ∧
    (e.set_cell x y ch fg bg).back.height = e.back.height ∧
    (∀ r, e.back.dirty r = true →
      (e.set_cell x y ch fg bg).back.dirty r = true) := by
  unfold Engine.set_cell
  split
  · obtain ⟨hw, hh, hd⟩ := set_preserves e.back x y ⟨ch, fg, bg⟩
    exact ⟨rfl, rfl, hw, hh, hd⟩
  · exact ⟨rfl, rfl, rfl, rfl, fun _ h => h⟩

theorem draw_text_preserves (e : Engine) (x y : Nat) (s : List Char)
    (fg bg : Nat) :
    (e.draw_text x y s fg bg).1.running = e.running ∧
    (e.draw_text x y s fg bg).1.front = e.front ∧
    (e.draw_text x y s fg bg).1.back.width = e.back.width ∧
    (e.draw_text x y s fg bg).1.back.height = e.back.height ∧
    (∀ r, e.back.dirty r = true →
      (e.draw_text x y s fg bg).1.back.dirty r = true) := by
  unfold Engine.draw_text
  split
  · obtain ⟨hw, hh, hd⟩ := drawTextAux_preserves fg bg y s e.back x 0
    exact ⟨rfl, rfl, hw, hh, hd⟩
  · exact ⟨rfl, rfl, rfl, rfl, fun _ h => h⟩

theorem fill_rect_preserves (e : Engine) (x y w h : Nat) (ch : Char)
    (fg bg : Nat) :
    (e.fill_rect x y w h ch fg bg).running = e.running ∧
    (e.fill_rect x y w h ch fg bg).front = e.front ∧
    (e.fill_rect x y w h ch fg bg).back.width = e.back.width ∧
    (e.fill_rect x y w h ch fg bg).back.height = e.back.height ∧
    (∀ r, e.back.dirty r = true →
      (e.fill_rect x y w h ch fg bg).back.dirty r = true) := by
  unfold Engine.fill_rect
  split
  · obtain ⟨hw, hh, hd⟩ := fillRect_preserves e.back x y w h ⟨ch, fg, bg⟩
    exact ⟨rfl, rfl, hw, hh, hd⟩
  · exact ⟨rfl, rfl, rfl, rfl, fun _ h => h⟩

theorem clearBack_preserves (e : Engine) :
    e.clearBack.running = e.running ∧
    e.clearBack.front = e.front ∧
    e.clearBack.back.width = e.back.width ∧
    e.clearBack.back.height = e.back.height ∧
    (∀ r, e.back.dirty r = true → e.clearBack.back.dirty r = true) := by
  unfold Engine.clearBack
  split
  · exact ⟨rfl, rfl, rfl, rfl, fun _ _ => rfl⟩
  · exact ⟨rfl, rfl, rfl, rfl, fun _ h => h⟩

theorem applyDraw_preserves (e : Engine) (d : DrawOp) :
    (applyDraw e d).running = e.running ∧
    (applyDraw e d).front = e.front ∧
    (applyDraw e d).back.width = e.back.width ∧
    (applyDraw e d).back.height = e.back.height ∧
    (∀ r, e.back.dirty r = true → (applyDraw e d).back.dirty r = true) := by
  cases d with
  | setCell x y ch fg bg => exact set_cell_preserves e x y ch fg bg
  | drawText x y s fg bg => exact draw_text_preserves e x y s fg bg
  | fillRect x y w h ch fg bg => exact fill_rect_preserves e x y w h ch fg bg
  | clear => exact clearBack_preserves e

theorem applyDraws_preserves (ds : List DrawOp) :
    ∀ (e : Engine),
    (applyDraws ds e).running = e.running ∧
    (applyDraws ds e).front = e.front ∧
    (applyDraws ds e).back.width = e.back.width ∧
    (applyDraws ds e).back.height = e.back.height ∧
    (∀ r, e.back.dirty r = true → (applyDraws ds e).back.dirty r = true) := by
  induction ds with
  | nil => intro e; exact ⟨rfl, rfl, rfl, rfl, fun _ h => h⟩
  | cons d rest ih =>
    intro e
    obtain ⟨r1, f1, w1, g1, d1⟩ := applyDraw_preserves e d
    obtain ⟨r2, f2, w2, g2, d2⟩ := ih (applyDraw e d)
    refine ⟨?_, ?_, ?_, ?_, ?_⟩ <;>
      simp only [applyDraws, List.foldl_cons]
    · exact r2.trans r1
    · exact f2.trans f1
    · exact w2.trans w1
    · exact g2.trans g1
    · exact fun r hr => d2 r (d1 r hr)

theorem begin_frame_facts (e : Engine) (hrun : e.running = true) :
    e.begin_frame.running = true ∧
    (∀ r, e.begin_frame.back.dirty r = true) ∧
    (e.front.width = e.back.width →
      e.begin_frame.front.width = e.begin_frame.back.width) ∧
    (e.front.height = e.back.height →
      e.begin_frame.front.height = e.begin_frame.back.height) := by
  unfold Engine.begin_frame
  cases hpr : e.pendingResize with
  | none => simp [hrun, hpr, CellBuffer.clear]
  | some wh =>
    cases wh with
    | mk w h => simp [hrun, hpr, CellBuffer.clear, emptyBuffer]

/-- C1: for the buffer pair produced by any sequence of draw operations
after `begin_frame` and flushed by `end_frame`, applying the emitted
terminal command stream to a terminal displaying the front (previous)
buffer yields a terminal image cell-equal to the back (current) buffer. -/
theorem end_frame_stream_correct (e : Engine) (ds : List DrawOp) (now : Nat)
    (t : Terminal)
    (hrun : e.running = true)
    (hfw : e.front.width = e.back.width)
    (hfh : e.front.height = e.back.height)
    (hdue : flushDue (applyDraws ds e.begin_frame) now = true)
    (hdisp : displays t (applyDraws ds e.begin_frame).front) :
    ∀ x, x < (applyDraws ds e.begin_frame).back.width →
    ∀ y, y < (applyDraws ds e.begin_frame).back.height →
      (applyCmds ((applyDraws ds e.begin_frame).end_frame now).2 t).grid x y =
        (applyDraws ds e.begin_frame).back.get x y := by
  obtain ⟨hb1, hb2, hb3, hb4⟩ := begin_frame_facts e hrun
  obtain ⟨hp1, hp2, hp3, hp4, hp5⟩ := applyDraws_preserves ds e.begin_frame
  obtain ⟨e1, he1⟩ : ∃ e1, applyDraws ds e.begin_frame = e1 := ⟨_, rfl⟩
  rw [he1] at hdue hdisp hp1 hp2 hp3 hp4 hp5 ⊢
  have hrun1 : e1.running = true := hp1.trans hb1
  have hout : (e1.end_frame now).2 =
      diffFrame e1.front e1.back e1.force_full_redraw := by
    simp [Engine.end_frame, hrun1, hdue]
  intro x hx y hy
  rw [hout]
  have hget : e1.back.get x y = e1.back.grid x y := by
    simp [CellBuffer.get, hx, hy]
  rw [hget]
  refine diffFrame_correct e1.front e1.back e1.force_full_redraw t
    ?_ ?_ ?_ hdisp x hx y hy
  · rw [hp2, hp3]; exact hb3 hfw
  · rw [hp2, hp4]; exact hb4 hfh
  · intro yy hyy hdy
    have hdall : e1.back.dirty yy = true := hp5 yy (hb2 yy)
    rw [hdy] at hdall
    exact absurd hdall (by simp)

/-- Witness for C1: a 3×2 engine drawing one cell, flushed at 100 ms, on
a terminal displaying the (empty) front buffer. -/
theorem end_frame_stream_correct_witness :
    (applyCmds
        (((applyDraws [DrawOp.setCell 0 0 'h' 1 2]
            (mkEngine 3 2).begin_frame).end_frame 100).2)
        ⟨fun _ _ => emptyCell, 0, 0, defaultFg, defaultBg, true⟩).grid 0 0 =
      (applyDraws [DrawOp.setCell 0 0 'h' 1 2]
        (mkEngine 3 2).begin_frame).back.get 0 0 :=
  end_frame_stream_correct (mkEngine 3 2) [DrawOp.setCell 0 0 'h' 1 2] 100
    ⟨fun _ _ => emptyCell, 0, 0, defaultFg, defaultBg, true⟩
    rfl rfl rfl (by decide)
    ⟨fun _ _ _ _ => rfl, rfl, rfl⟩
    0 (by decide) 0 (by decide)

end Flywheel
